import Mathlib

open scoped List

/-!
Verification of the context-selection engine of `slack-llm-translate`
(`utils/context-manager.js`), shallowly embedded in Lean 4.

Modelling conventions:
* JS strings are Lean `String` / `List Char`; `String.toLower`-style case
  mapping and character classes (`\w`, `\s`, `\d`) follow the ASCII semantics
  that the JS regexes themselves use (`\w = [A-Za-z0-9_]`, `\d = [0-9]`).
* JS numbers are exact: integer-valued quantities become `Int`/`Nat`,
  fractional scores become `ℚ`.  `parseInt`/`parseFloat` return `Option`
  (`none` models `NaN`); non-finite `parseFloat` results (e.g. `"Infinity"`)
  are not representable in `ℚ` and are modelled as parse failures - no claim
  below depends on that corner.
* `Array.prototype.sort` is a stable sort (ECMA-262); it is modelled by a
  stable insertion sort parameterised by a key function into a linear order.
  The JS comparators `(a, b) => b.score - a.score`, `(a, b) => b[1] - a[1]`
  and `(a, b) => a.timestamp - b.timestamp` are, extensionally, the stable
  ascending sorts by the keys `-score`, `-count` and `timestamp`.
* The process-global `CONFIG` object is passed explicitly as a `Config`
  value; `CONFIG` below is the value obtained from an empty environment.
-/

/-- A conversation message as stored by the bot: `{role, content, timestamp}`. -/
structure Message where
  role : String
  content : String
  timestamp : Int
  deriving DecidableEq, Repr

/-- The context configuration produced by `createConfig` in
`context-manager.js`. -/
structure Config where
  MAX_CONTEXT_CHARS : Int
  MIN_RECENT_MESSAGES : Int
  MAX_RELEVANT_OLDER : Int
  MIN_KEYWORD_LENGTH : Int
  RELEVANCE_THRESHOLD : ℚ
  deriving DecidableEq, Repr

/-- The five environment variables read by `createConfig`; `none` models an
unset variable (`process.env.X === undefined`). -/
structure Env where
  MAX_CONTEXT_CHARS : Option String
  MIN_RECENT_MESSAGES : Option String
  MAX_RELEVANT_OLDER : Option String
  MIN_KEYWORD_LENGTH : Option String
  RELEVANCE_THRESHOLD : Option String

/-- Leading sign of a JS numeric literal, as consumed by `parseInt` and
`parseFloat`. -/
def parseSign : List Char → Int × List Char
  | '-' :: t => (-1, t)
  | '+' :: t => (1, t)
  | t => (1, t)

/-- Value of a decimal digit string (most significant first). -/
def decValue (ds : List Char) : Nat :=
  ds.foldl (fun a c => a * 10 + (c.toNat - 48)) 0

/-- Hexadecimal digit test, for `parseInt`'s `0x` prefix handling. -/
def isHexDigit (c : Char) : Bool :=
  c.isDigit || ('a' ≤ c && c ≤ 'f') || ('A' ≤ c && c ≤ 'F')

/-- Value of one hexadecimal digit. -/
def hexDigitVal (c : Char) : Nat :=
  if c.isDigit then c.toNat - 48
  else if 'a' ≤ c && c ≤ 'f' then c.toNat - 87
  else c.toNat - 55

/-- Value of a hexadecimal digit string (most significant first). -/
def hexValue (ds : List Char) : Nat :=
  ds.foldl (fun a c => a * 16 + hexDigitVal c) 0

/-- Decimal branch of `parseInt`: longest digit prefix, `NaN` if empty. -/
def parseDec (sign : Int) (cs : List Char) : Option Int :=
  let ds := cs.takeWhile Char.isDigit
  if ds = [] then none else some (sign * (decValue ds : Int))

/-- JS `parseInt(x)` (radix auto-detection: optional `0x`/`0X` prefix selects
hexadecimal).  `none` models `NaN`; `parseInt(undefined)` is `NaN`. -/
def jsParseInt : Option String → Option Int
  | none => none
  | some s =>
    let p := parseSign (s.data.dropWhile Char.isWhitespace)
    match p.2 with
    | '0' :: c :: t =>
      if c = 'x' ∨ c = 'X' then
        let ds := t.takeWhile isHexDigit
        if ds = [] then none else some (p.1 * (hexValue ds : Int))
      else parseDec p.1 p.2
    | cs => parseDec p.1 cs

/-- Mantissa-and-exponent part of `parseFloat`, after sign stripping. -/
def parseFloatBody (sign : Int) (cs : List Char) : Option ℚ :=
  let ip := cs.takeWhile Char.isDigit
  let rest := cs.dropWhile Char.isDigit
  let fp : List Char × List Char :=
    match rest with
    | '.' :: t => (t.takeWhile Char.isDigit, t.dropWhile Char.isDigit)
    | _ => ([], rest)
  if ip = [] ∧ fp.1 = [] then none
  else
    let mant : ℚ := (decValue ip : ℚ) + mkRat (decValue fp.1) (10 ^ fp.1.length)
    let expo : Int :=
      match fp.2 with
      | e :: t =>
        if e = 'e' ∨ e = 'E' then
          let q := parseSign t
          let ds := q.2.takeWhile Char.isDigit
          if ds = [] then 0 else q.1 * (decValue ds : Int)
        else 0
      | [] => 0
    let scaled : ℚ :=
      if 0 ≤ expo then mant * ((10 : ℚ) ^ expo.toNat)
      else mant * mkRat 1 (10 ^ (-expo).toNat)
    some ((sign : ℚ) * scaled)

/-- JS `parseFloat(x)`; `none` models `NaN` (and, as noted above, the
non-finite `"Infinity"` family, which no claim depends on). -/
def jsParseFloat : Option String → Option ℚ
  | none => none
  | some s =>
    let p := parseSign (s.data.dropWhile Char.isWhitespace)
    parseFloatBody p.1 p.2

/-- JS `x || d` for `x` the result of `parseInt`: `NaN` and `±0` are falsy. -/
def jsOrInt : Option Int → Int → Int
  | none, d => d
  | some n, d => if n = 0 then d else n

/-- JS `x || d` for `x` the result of `parseFloat`. -/
def jsOrQ : Option ℚ → ℚ → ℚ
  | none, d => d
  | some q, d => if q = 0 then d else q

/-- `createConfig` from `context-manager.js`: each field is
`parseInt(process.env.X) || default` (resp. `parseFloat` for the
threshold). -/
def createConfig (env : Env) : Config where
  MAX_CONTEXT_CHARS := jsOrInt (jsParseInt env.MAX_CONTEXT_CHARS) 4000
  MIN_RECENT_MESSAGES := jsOrInt (jsParseInt env.MIN_RECENT_MESSAGES) 3
  MAX_RELEVANT_OLDER := jsOrInt (jsParseInt env.MAX_RELEVANT_OLDER) 3
  MIN_KEYWORD_LENGTH := jsOrInt (jsParseInt env.MIN_KEYWORD_LENGTH) 4
  RELEVANCE_THRESHOLD := jsOrQ (jsParseFloat env.RELEVANCE_THRESHOLD) (mkRat 3 10)

/-- The module-level `CONFIG` constant, for an environment that sets none of
the five variables: `{4000, 3, 3, 4, 0.3}`. -/
def CONFIG : Config := createConfig ⟨none, none, none, none, none⟩

/-- JS `\w` character class: `[A-Za-z0-9_]`. -/
def isWordChar (c : Char) : Bool :=
  c.isAlphanum || c = '_'

/-- One character of `text.replace(/[^\w\s]/g, ' ')`: non-word, non-space
characters become a space. -/
def normalizeChar (c : Char) : Char :=
  if isWordChar c || c.isWhitespace then c else ' '

/-- Extend the first piece of a split with one more leading character. -/
def consPiece (c : Char) : List (List Char) → List (List Char)
  | [] => [[c]]
  | p :: ps => (c :: p) :: ps

/-- JS `s.split(/\s+/)` on a character list: pieces between maximal
whitespace runs.  Like the JS original this produces an empty piece for
leading (or trailing) whitespace and `[""]` on the empty string; all callers
filter by a positive minimum length, discarding those pieces.  A whitespace
character opens a new (initially empty) piece exactly when it is the last
character or the next character is not whitespace, so a whitespace run
contributes a single boundary. -/
def jsSplitWs : List Char → List (List Char)
  | [] => [[]]
  | [c] => if c.isWhitespace then [[], []] else consPiece c [[]]
  | c :: d :: cs =>
    if c.isWhitespace then
      (if d.isWhitespace then jsSplitWs (d :: cs) else [] :: jsSplitWs (d :: cs))
    else consPiece c (jsSplitWs (d :: cs))

/-- The stop-word set from `extractKeywords` (the JS source lists `'no'`
twice; only membership matters). -/
def stopWords : List String :=
  ["the", "be", "to", "of", "and", "a", "in", "that", "have", "i",
   "it", "for", "not", "on", "with", "he", "as", "you", "do", "at",
   "this", "but", "his", "by", "from", "they", "we", "say", "her", "she",
   "or", "an", "will", "my", "one", "all", "would", "there", "their",
   "what", "so", "up", "out", "if", "about", "who", "get", "which", "go",
   "me", "when", "make", "can", "like", "time", "no", "just", "him", "know",
   "take", "people", "into", "year", "your", "good", "some", "could", "them",
   "see", "other", "than", "then", "now", "look", "only", "come", "its", "over",
   "think", "also", "back", "after", "use", "two", "how", "our", "work",
   "first", "well", "way", "even", "new", "want", "because", "any", "these",
   "give", "day", "most", "us", "is", "are", "was", "were", "been", "has",
   "had", "does", "did", "am", "please", "thanks", "thank", "hello", "hi",
   "hey", "okay", "yes", "no"]

/-- `/^\d+$/.test(w)`: a non-empty all-digit token. -/
def isNumericStr (w : String) : Bool :=
  !w.data.isEmpty && w.data.all Char.isDigit

/-- The token filter of `extractKeywords`: keep tokens of length at least
`MIN_KEYWORD_LENGTH` that are neither stop words nor purely numeric. -/
def keywordPred (cfg : Config) (w : String) : Bool :=
  decide (cfg.MIN_KEYWORD_LENGTH ≤ (w.length : Int)) &&
    !(decide (w ∈ stopWords)) && !(isNumericStr w)

/-- `text.toLowerCase().replace(/[^\w\s]/g, ' ').split(/\s+/).filter(...)`
from `extractKeywords`. -/
def wordsOf (cfg : Config) (text : String) : List String :=
  ((jsSplitWs ((text.data.map Char.toLower).map normalizeChar)).map
      (fun l => String.mk l)).filter (keywordPred cfg)

/-- One step of the frequency-count loop
`wordFreq[word] = (wordFreq[word] || 0) + 1`, on an association list kept in
key-insertion order (the enumeration order of a JS object with non-index
string keys). -/
def bump (w : String) : List (String × Nat) → List (String × Nat)
  | [] => [(w, 1)]
  | (k, c) :: rest => if k = w then (k, c + 1) :: rest else (k, c) :: bump w rest

/-- `Object.entries(wordFreq)` after the `forEach` counting loop. -/
def countTokens (ws : List String) : List (String × Nat) :=
  ws.foldl (fun acc w => bump w acc) []

/-- Stable insert for `sortByKey`: `x` is placed before the first element
whose key is not smaller, so that elements with equal keys keep their input
order. -/
def insKey {α : Type} {K : Type} [LinearOrder K] (key : α → K) (x : α) :
    List α → List α
  | [] => [x]
  | y :: ys => if key x ≤ key y then x :: y :: ys else y :: insKey key x ys

/-- Stable sort, ascending by `key`: the model of the (stable, ECMA-262)
`Array.prototype.sort` under a numeric comparator. -/
def sortByKey {α : Type} {K : Type} [LinearOrder K] (key : α → K) :
    List α → List α
  | [] => []
  | x :: xs => insKey key x (sortByKey key xs)

/-- Sort key for `.sort((a, b) => b[1] - a[1])`: descending by count, i.e.
ascending by the negated count. -/
def freqKey (p : String × Nat) : Int := -(p.2 : Int)

/-- `extractKeywords(text)`: filtered tokens, counted, stable-sorted by
descending frequency, top 10. -/
def extractKeywords (cfg : Config) (text : String) : List String :=
  ((sortByKey freqKey (countTokens (wordsOf cfg text))).take 10).map Prod.fst

/-- The lowercased raw message content (`messageText` in
`calculateRelevance`): punctuation is still present here. -/
def messageTextLower (m : Message) : List Char :=
  m.content.data.map Char.toLower

/-- The `messageWords` set of `calculateRelevance`: tokens of the lowercased,
punctuation-stripped content of length at least `MIN_KEYWORD_LENGTH` (no
stop-word or digit filtering here).  Only membership is used, so the JS `Set`
is modelled as the underlying list. -/
def messageTokens (cfg : Config) (m : Message) : List String :=
  ((jsSplitWs ((messageTextLower m).map normalizeChar)).map
      (fun l => String.mk l)).filter
    (fun w => decide (cfg.MIN_KEYWORD_LENGTH ≤ (w.length : Int)))

/-- `hay.includes(needle)` on character lists. -/
def strIncludes : List Char → List Char → Bool
  | [], needle => needle.isPrefixOf ([] : List Char)
  | c :: t, needle => needle.isPrefixOf (c :: t) || strIncludes t needle

/-- The per-keyword match test of `calculateRelevance`:
`messageWords.has(keyword) || messageText.includes(keyword)`. -/
def keywordMatches (cfg : Config) (m : Message) (kw : String) : Bool :=
  decide (kw ∈ messageTokens cfg m) || strIncludes (messageTextLower m) kw.data

/-- `calculateRelevance(message, keywords)`: 0 for an empty keyword list,
otherwise (matching keywords) / (total keywords) as an exact rational. -/
def calculateRelevance (cfg : Config) (m : Message) (keywords : List String) : ℚ :=
  if keywords = [] then 0
  else mkRat (keywords.countP (fun kw => keywordMatches cfg m kw) : Int)
    keywords.length

/-- A scored older message, `{message, score}`. -/
structure ScoredMessage where
  message : Message
  score : ℚ
  deriving DecidableEq

/-- Sort key for `.sort((a, b) => b.score - a.score)`: descending by score. -/
def scoreKey (p : ScoredMessage) : ℚ := -p.score

/-- Sort key for `.sort((a, b) => a.timestamp - b.timestamp)`. -/
def tsKey (m : Message) : Int := m.timestamp

/-- JS `arr.slice(start)` for an integer `start` (negative counts from the
end; `slice(-0) = slice(0)` returns the whole array). -/
def jsSliceFrom {α : Type} (arr : List α) (start : Int) : List α :=
  if start < 0 then arr.drop ((arr.length + start).toNat)
  else arr.drop start.toNat

/-- JS `arr.slice(0, end)` for an integer `end` (negative counts from the
end; `slice(0, -0) = slice(0, 0)` is empty). -/
def jsSliceTo {α : Type} (arr : List α) (stop : Int) : List α :=
  if stop < 0 then arr.take ((arr.length + stop).toNat)
  else arr.take stop.toNat

/-- `selectRelevantMessages(conversationHistory, currentPrompt)`. -/
def selectRelevantMessages (cfg : Config) (conversationHistory : List Message)
    (currentPrompt : String) : List Message :=
  if conversationHistory = [] then []
  else
    let keywords := extractKeywords cfg currentPrompt
    let recentMessages := jsSliceFrom conversationHistory (-cfg.MIN_RECENT_MESSAGES)
    let olderMessages := jsSliceTo conversationHistory (-cfg.MIN_RECENT_MESSAGES)
    if olderMessages = [] then recentMessages
    else
      let scoredMessages := olderMessages.map
        (fun msg => ScoredMessage.mk msg (calculateRelevance cfg msg keywords))
      let relevantOlder :=
        (jsSliceTo
            (sortByKey scoreKey
              (scoredMessages.filter
                (fun item => decide (cfg.RELEVANCE_THRESHOLD ≤ item.score))))
            cfg.MAX_RELEVANT_OLDER).map ScoredMessage.message
      sortByKey tsKey (relevantOlder ++ recentMessages)

/-- Per-message cost in `truncateToCharLimit`:
`msg.content.length + 30`. -/
def msgSize (m : Message) : Int := (m.content.length : Int) + 30

/-- Total cost of a message list under the budgeter's accounting. -/
def totalSize (l : List Message) : Int := (l.map msgSize).sum

/-- The newest-to-oldest accumulation loop of `truncateToCharLimit`:
`rest` is the not-yet-visited part of the reversed input, `result` the
(chronological) accepted messages, `totalChars` their accumulated cost. -/
def truncGo (maxChars : Int) : List Message → Int → List Message → List Message
  | [], _, result => result
  | msg :: rest, totalChars, result =>
    if totalChars + msgSize msg > maxChars ∧ result ≠ [] then result
    else truncGo maxChars rest (totalChars + msgSize msg) (msg :: result)

/-- `truncateToCharLimit(messages, maxChars)`. -/
def truncateToCharLimit (messages : List Message) (maxChars : Int) : List Message :=
  truncGo maxChars messages.reverse 0 []

/-- The `forEach` body of the formatter: one line per message, with an arrow
marker for the last `MIN_RECENT_MESSAGES` entries of the output. -/
def contextLines (cfg : Config) (msgs : List Message) : String :=
  (msgs.enum.map (fun p =>
      let role := if p.2.role = "user" then "User" else "Assistant"
      let marker :=
        if (msgs.length : Int) - cfg.MIN_RECENT_MESSAGES ≤ (p.1 : Int) then "→"
        else "•"
      marker ++ " " ++ role ++ ": " ++ p.2.content ++ "\n")).foldl
    (fun acc line => acc ++ line) ""

/-- `buildOptimizedContext(conversationHistory, currentPrompt)`. -/
def buildOptimizedContext (cfg : Config) (conversationHistory : List Message)
    (currentPrompt : String) : String :=
  let relevantMessages := selectRelevantMessages cfg conversationHistory currentPrompt
  let truncatedMessages := truncateToCharLimit relevantMessages cfg.MAX_CONTEXT_CHARS
  if 0 < truncatedMessages.length then
    "Conversation context:\n\n" ++ contextLines cfg truncatedMessages ++ "\n---\n\n"
  else ""

/-- Exact rational quotient of two integers (JS number division, exact). -/
def ratDiv (a b : Int) : ℚ :=
  if 0 ≤ b then mkRat a b.toNat else mkRat (-a) (-b).toNat

/-- `Number.prototype.toFixed(1)`, modelled exactly on `ℚ`: round to tenths,
ties to the larger value (ECMA-262: "If there are two such n, pick the larger
n"). -/
def toFixed1 (x : ℚ) : ℚ := mkRat (⌊x * 10 + mkRat 1 2⌋ : Int) 10

/-- The record returned by `getContextStats`. -/
structure ContextStats where
  totalMessages : Nat
  relevantMessages : Nat
  includedMessages : Nat
  totalChars : Nat
  utilizationPercent : ℚ
  deriving DecidableEq

/-- `getContextStats(conversationHistory, currentPrompt)`. -/
def getContextStats (cfg : Config) (conversationHistory : List Message)
    (currentPrompt : String) : ContextStats :=
  let relevantMessages := selectRelevantMessages cfg conversationHistory currentPrompt
  let truncatedMessages := truncateToCharLimit relevantMessages cfg.MAX_CONTEXT_CHARS
  let totalChars := truncatedMessages.foldl (fun sum msg => sum + msg.content.length) 0
  { totalMessages := conversationHistory.length
    relevantMessages := relevantMessages.length
    includedMessages := truncatedMessages.length
    totalChars := totalChars
    utilizationPercent :=
      toFixed1 (ratDiv (totalChars : Int) cfg.MAX_CONTEXT_CHARS * 100) }

/-- Chronological comparison used throughout: `a` is no newer than `b`. -/
def tsLE (a b : Message) : Prop := a.timestamp ≤ b.timestamp

instance : DecidableRel tsLE := fun a b =>
  inferInstanceAs (Decidable (a.timestamp ≤ b.timestamp))

/-- First occurrences in `ws` of tokens not in `seen`, in order: the
specification of the enumeration order of the JS frequency object's keys. -/
def fodFrom (seen : List String) : List String → List String
  | [] => []
  | w :: ws => if w ∈ seen then fodFrom seen ws else w :: fodFrom (w :: seen) ws

/-- First-occurrence deduplication of a token list. -/
def fod (ws : List String) : List String := fodFrom [] ws

/-- The count stored under key `k` in an association list (0 when absent). -/
def lookupD (k : String) : List (String × Nat) → Nat
  | [] => 0
  | (k1, c) :: rest => if k1 = k then c else lookupD k rest

/-- Sample user message, used for the concrete witnesses and
counterexamples below. -/
def mUser (content : String) (ts : Int) : Message :=
  ⟨"user", content, ts⟩

/-! ### Generic lemmas about the stable sort -/

theorem insKey_perm {α K : Type} [LinearOrder K] (key : α → K) (x : α) (l : List α) :
    insKey key x l ~ x :: l := by
  induction l with
  | nil => exact List.Perm.refl _
  | cons y ys ih =>
    simp only [insKey]
    split
    · exact List.Perm.refl _
    · exact (ih.cons y).trans (List.Perm.swap x y ys)

theorem sortByKey_perm {α K : Type} [LinearOrder K] (key : α → K) (l : List α) :
    sortByKey key l ~ l := by
  induction l with
  | nil => exact List.Perm.refl _
  | cons x xs ih => exact (insKey_perm key x (sortByKey key xs)).trans (ih.cons x)

theorem insKey_pairwise {α K : Type} [LinearOrder K] (key : α → K)
    (R : α → α → Prop) (x : α) (l : List α)
    (hl : l.Pairwise (fun a b => key a < key b ∨ (key a = key b ∧ R a b)))
    (hx : ∀ y ∈ l, key x = key y → R x y) :
    (insKey key x l).Pairwise (fun a b => key a < key b ∨ (key a = key b ∧ R a b)) := by
  induction l with
  | nil => simp [insKey]
  | cons y ys ih =>
    rw [List.pairwise_cons] at hl
    obtain ⟨hy, hys⟩ := hl
    simp only [insKey]
    split
    case isTrue hle =>
      refine List.Pairwise.cons ?_ (List.Pairwise.cons hy hys)
      intro z hz
      rcases List.mem_cons.mp hz with rfl | hz
      · rcases lt_or_eq_of_le hle with hlt | heq
        · exact Or.inl hlt
        · exact Or.inr ⟨heq, hx z (List.mem_cons_self z ys) heq⟩
      · have hyz : key y ≤ key z := by
          rcases hy z hz with hlt | ⟨heq, _⟩
          · exact le_of_lt hlt
          · exact le_of_eq heq
        rcases lt_or_eq_of_le (le_trans hle hyz) with hlt | heq
        · exact Or.inl hlt
        · exact Or.inr ⟨heq, hx z (List.mem_cons_of_mem y hz) heq⟩
    case isFalse hgt =>
      have hyx : key y < key x := lt_of_not_le hgt
      refine List.Pairwise.cons ?_ (ih hys (fun z hz => hx z (List.mem_cons_of_mem y hz)))
      intro z hz
      rcases List.mem_cons.mp ((insKey_perm key x ys).mem_iff.mp hz) with rfl | hz
      · exact Or.inl hyx
      · exact hy z hz

theorem sortByKey_pairwise {α K : Type} [LinearOrder K] (key : α → K)
    (R : α → α → Prop) (l : List α) (hl : l.Pairwise R) :
    (sortByKey key l).Pairwise (fun a b => key a < key b ∨ (key a = key b ∧ R a b)) := by
  induction l with
  | nil => simp [sortByKey]
  | cons x xs ih =>
    rw [List.pairwise_cons] at hl
    exact insKey_pairwise key R x (sortByKey key xs) (ih hl.2)
      (fun y hy _ => hl.1 y ((sortByKey_perm key xs).mem_iff.mp hy))

theorem pairwise_trivial {α : Type} (l : List α) : l.Pairwise (fun _ _ => True) := by
  induction l with
  | nil => exact List.Pairwise.nil
  | cons x xs ih => exact List.Pairwise.cons (fun _ _ => trivial) ih

/-- Stable sort of a list whose keys are already ascending returns it
unchanged. -/
theorem sortByKey_of_sorted {α K : Type} [LinearOrder K] (key : α → K) (l : List α)
    (hl : l.Pairwise (fun a b => key a ≤ key b)) : sortByKey key l = l := by
  induction l with
  | nil => rfl
  | cons x xs ih =>
    rw [List.pairwise_cons] at hl
    rw [sortByKey, ih hl.2]
    cases xs with
    | nil => rfl
    | cons y ys => simp [insKey, hl.1 y (List.mem_cons_self y ys)]

/-! ### Lemmas about the budgeter loop -/

theorem msgSize_pos (m : Message) : 0 < msgSize m := by
  unfold msgSize
  omega

theorem totalSize_cons (m : Message) (l : List Message) :
    totalSize (m :: l) = msgSize m + totalSize l := by
  simp [totalSize]

theorem truncGo_ne_nil (maxChars : Int) (rest : List Message) (total : Int)
    (result : List Message) (h : result ≠ [] ∨ rest ≠ []) :
    truncGo maxChars rest total result ≠ [] := by
  induction rest generalizing total result with
  | nil =>
    rcases h with h | h
    · exact h
    · exact absurd rfl h
  | cons m rest ih =>
    rw [truncGo]
    split
    case isTrue hc => exact hc.2
    case isFalse hc => exact ih _ _ (Or.inl (List.cons_ne_nil m result))

theorem truncGo_high (maxChars : Int) (rest : List Message) (total : Int)
    (result : List Message) (hres : result ≠ []) (hhigh : maxChars < total) :
    truncGo maxChars rest total result = result := by
  cases rest with
  | nil => rfl
  | cons m rest =>
    rw [truncGo, if_pos]
    exact ⟨by have := msgSize_pos m; omega, hres⟩

theorem truncGo_le (maxChars : Int) (rest : List Message) (total : Int)
    (result : List Message) (hres : result ≠ []) (htot : total = totalSize result)
    (hle : total ≤ maxChars) :
    totalSize (truncGo maxChars rest total result) ≤ maxChars := by
  induction rest generalizing total result with
  | nil => rw [truncGo, ← htot]; exact hle
  | cons m rest ih =>
    rw [truncGo]
    split
    case isTrue hc => rw [← htot]; exact hle
    case isFalse hc =>
      have hnot : ¬ (total + msgSize m > maxChars) := fun hgt => hc ⟨hgt, hres⟩
      exact ih (total + msgSize m) (m :: result) (List.cons_ne_nil m result)
        (by rw [totalSize_cons, ← htot]; omega) (by omega)

theorem truncGo_suffix (maxChars : Int) (rest : List Message) (total : Int)
    (result : List Message) :
    ∃ k, truncGo maxChars rest total result = (rest.take k).reverse ++ result := by
  induction rest generalizing total result with
  | nil => exact ⟨0, by simp [truncGo]⟩
  | cons m rest ih =>
    rw [truncGo]
    split
    case isTrue hc => exact ⟨0, by simp⟩
    case isFalse hc =>
      obtain ⟨k, hk⟩ := ih (total + msgSize m) (m :: result)
      exact ⟨k + 1, by simp only [List.take_succ_cons, List.reverse_cons,
        List.append_assoc, List.singleton_append]; exact hk⟩

theorem truncateToCharLimit_start (msgs : List Message) (maxChars : Int)
    (a : Message) (t : List Message) (h : msgs.reverse = a :: t) :
    truncateToCharLimit msgs maxChars = truncGo maxChars t (msgSize a) [a] := by
  unfold truncateToCharLimit
  rw [h, truncGo, if_neg (by simp), zero_add]

theorem getLast_of_reverse_cons (msgs : List Message) (a : Message)
    (t : List Message) (h : msgs.reverse = a :: t) (hne : msgs ≠ []) :
    msgs.getLast hne = a := by
  have h1 : msgs.getLast? = some a := by
    rw [List.getLast?_eq_head?_reverse, h, List.head?_cons]
  rw [List.getLast?_eq_getLast msgs hne] at h1
  exact Option.some.inj h1

/-! ### C1 and C3: the budgeter -/

/-- C1: on a non-empty input the budgeter returns a non-empty list; when the
newest message alone fits the budget, the total cost (content length plus the
fixed overhead of 30 per message) of the result is within the budget, and
when the newest message alone exceeds the budget the result is exactly that
one message. -/
theorem truncateToCharLimit_budget (msgs : List Message) (maxChars : Int)
    (h : msgs ≠ []) :
    truncateToCharLimit msgs maxChars ≠ [] ∧
    (msgSize (msgs.getLast h) ≤ maxChars →
      totalSize (truncateToCharLimit msgs maxChars) ≤ maxChars) ∧
    (maxChars < msgSize (msgs.getLast h) →
      truncateToCharLimit msgs maxChars = [msgs.getLast h]) := by
  have hrev : msgs.reverse ≠ [] := by
    intro hc
    exact h (by simpa using congrArg List.reverse hc)
  obtain ⟨a, t, hat⟩ := List.exists_cons_of_ne_nil hrev
  have hg : msgs.getLast h = a := getLast_of_reverse_cons msgs a t hat h
  have heq : truncateToCharLimit msgs maxChars = truncGo maxChars t (msgSize a) [a] :=
    truncateToCharLimit_start msgs maxChars a t hat
  refine ⟨?_, ?_, ?_⟩
  · rw [heq]
    exact truncGo_ne_nil _ _ _ _ (Or.inl (List.cons_ne_nil a []))
  · intro hle
    rw [hg] at hle
    rw [heq]
    exact truncGo_le maxChars t (msgSize a) [a] (List.cons_ne_nil a [])
      (by simp [totalSize]) hle
  · intro hgt
    rw [hg] at hgt
    rw [heq, hg]
    exact truncGo_high maxChars t (msgSize a) [a] (List.cons_ne_nil a []) hgt

/-- Witness for C1: a singleton message of cost 34 under budget 100. -/
theorem truncateToCharLimit_budget_wit :
    ([mUser "aaaa" 1] ≠ []) ∧
    (truncateToCharLimit [mUser "aaaa" 1] 100 ≠ [] ∧
      (msgSize (([mUser "aaaa" 1]).getLast (by decide)) ≤ 100 →
        totalSize (truncateToCharLimit [mUser "aaaa" 1] 100) ≤ 100) ∧
      (100 < msgSize (([mUser "aaaa" 1]).getLast (by decide)) →
        truncateToCharLimit [mUser "aaaa" 1] 100 =
          [([mUser "aaaa" 1]).getLast (by decide)])) :=
  ⟨by decide, truncateToCharLimit_budget [mUser "aaaa" 1] 100 (by decide)⟩

/-- C3: the budgeter's output is a contiguous suffix of its input, and a
chronologically ordered input therefore yields a chronologically ordered
output. -/
theorem truncateToCharLimit_suffix (msgs : List Message) (maxChars : Int) :
    truncateToCharLimit msgs maxChars <:+ msgs ∧
    (msgs.Pairwise tsLE → (truncateToCharLimit msgs maxChars).Pairwise tsLE) := by
  obtain ⟨k, hk⟩ := truncGo_suffix maxChars msgs.reverse 0 []
  have hsuf : truncateToCharLimit msgs maxChars <:+ msgs := by
    rw [truncateToCharLimit, hk, List.append_nil]
    refine ⟨(msgs.reverse.drop k).reverse, ?_⟩
    rw [← List.reverse_append, List.take_append_drop, List.reverse_reverse]
  exact ⟨hsuf, fun hsorted => hsorted.sublist hsuf.sublist⟩

/-- Witness for C3: with budget 70 and three messages of cost 34, the
budgeter keeps the two newest, a suffix, still chronologically ordered. -/
theorem truncateToCharLimit_suffix_wit :
    truncateToCharLimit [mUser "aaaa" 1, mUser "bbbb" 2, mUser "cccc" 3] 70 <:+
      [mUser "aaaa" 1, mUser "bbbb" 2, mUser "cccc" 3] ∧
    (truncateToCharLimit [mUser "aaaa" 1, mUser "bbbb" 2, mUser "cccc" 3]
      70).Pairwise tsLE :=
  ⟨(truncateToCharLimit_suffix [mUser "aaaa" 1, mUser "bbbb" 2, mUser "cccc" 3] 70).1,
   (truncateToCharLimit_suffix [mUser "aaaa" 1, mUser "bbbb" 2, mUser "cccc" 3] 70).2
     (by decide)⟩

/-! ### Lemmas about the JS slices and the selector -/

theorem jsSliceFrom_eq_drop {α : Type} (arr : List α) (s : Int) :
    ∃ k, jsSliceFrom arr s = arr.drop k := by
  unfold jsSliceFrom
  split
  · exact ⟨_, rfl⟩
  · exact ⟨_, rfl⟩

theorem jsSliceTo_eq_take {α : Type} (arr : List α) (s : Int) :
    ∃ k, jsSliceTo arr s = arr.take k := by
  unfold jsSliceTo
  split
  · exact ⟨_, rfl⟩
  · exact ⟨_, rfl⟩

/-- `arr.slice(0, -n)` and `arr.slice(-n)` split `arr` in two. -/
theorem jsSlice_split {α : Type} (arr : List α) (n : Int) :
    jsSliceTo arr (-n) ++ jsSliceFrom arr (-n) = arr := by
  unfold jsSliceTo jsSliceFrom
  split
  · exact List.take_append_drop _ arr
  · exact List.take_append_drop _ arr

/-- Branch-free form of `selectRelevantMessages` (the `let` chain of the
source, zeta-reduced). -/
theorem selectRelevantMessages_eq (cfg : Config) (history : List Message)
    (prompt : String) :
    selectRelevantMessages cfg history prompt =
      if history = [] then []
      else if jsSliceTo history (-cfg.MIN_RECENT_MESSAGES) = [] then
        jsSliceFrom history (-cfg.MIN_RECENT_MESSAGES)
      else
        sortByKey tsKey
          ((jsSliceTo
              (sortByKey scoreKey
                (((jsSliceTo history (-cfg.MIN_RECENT_MESSAGES)).map
                    (fun msg => ScoredMessage.mk msg
                      (calculateRelevance cfg msg (extractKeywords cfg prompt)))).filter
                  (fun item => decide (cfg.RELEVANCE_THRESHOLD ≤ item.score))))
              cfg.MAX_RELEVANT_OLDER).map ScoredMessage.message ++
            jsSliceFrom history (-cfg.MIN_RECENT_MESSAGES)) := rfl

/-! ### C7: short history is passed through unchanged -/

/-- C7: when the history has at most `MIN_RECENT_MESSAGES` entries the
selector returns it whole, in its original order. -/
theorem selectRelevantMessages_short (cfg : Config) (history : List Message)
    (prompt : String) (h : (history.length : Int) ≤ cfg.MIN_RECENT_MESSAGES) :
    selectRelevantMessages cfg history prompt = history := by
  rw [selectRelevantMessages_eq]
  by_cases hnil : history = []
  · rw [if_pos hnil, hnil]
  · rw [if_neg hnil]
    have hlen : 0 < history.length := List.length_pos.mpr hnil
    have hneg : -cfg.MIN_RECENT_MESSAGES < 0 := by omega
    have hz : ((history.length : Int) + -cfg.MIN_RECENT_MESSAGES).toNat = 0 := by omega
    have holder : jsSliceTo history (-cfg.MIN_RECENT_MESSAGES) = [] := by
      unfold jsSliceTo
      rw [if_pos hneg, hz, List.take_zero]
    have hrecent : jsSliceFrom history (-cfg.MIN_RECENT_MESSAGES) = history := by
      unfold jsSliceFrom
      rw [if_pos hneg, hz, List.drop_zero]
    rw [if_pos holder, hrecent]

/-- Witness for C7: a 2-message history under the default
`MIN_RECENT_MESSAGES = 3`. -/
theorem selectRelevantMessages_short_wit :
    (([mUser "aaaa" 1, mUser "bbbb" 2].length : Int) ≤ CONFIG.MIN_RECENT_MESSAGES) ∧
    selectRelevantMessages CONFIG [mUser "aaaa" 1, mUser "bbbb" 2] "x" =
      [mUser "aaaa" 1, mUser "bbbb" 2] :=
  ⟨by decide,
   selectRelevantMessages_short CONFIG [mUser "aaaa" 1, mUser "bbbb" 2] "x" (by decide)⟩

/-! ### C2: selector output order and multiplicity -/

theorem subperm_map {α β : Type} (f : α → β) {l₁ l₂ : List α} (h : l₁ <+~ l₂) :
    l₁.map f <+~ l₂.map f := by
  obtain ⟨l, hperm, hsub⟩ := h
  exact ⟨l.map f, hperm.map f, hsub.map f⟩

/-- The kept-older messages are, with multiplicity, among the older slice. -/
theorem relevantOlder_subperm (cfg : Config) (older : List Message)
    (keywords : List String) :
    ((jsSliceTo
        (sortByKey scoreKey
          ((older.map (fun msg => ScoredMessage.mk msg
              (calculateRelevance cfg msg keywords))).filter
            (fun item => decide (cfg.RELEVANCE_THRESHOLD ≤ item.score))))
        cfg.MAX_RELEVANT_OLDER).map ScoredMessage.message) <+~ older := by
  set scored := older.map (fun msg => ScoredMessage.mk msg
    (calculateRelevance cfg msg keywords)) with hscored
  have h1 : ∃ k, jsSliceTo
      (sortByKey scoreKey (scored.filter
        (fun item => decide (cfg.RELEVANCE_THRESHOLD ≤ item.score))))
      cfg.MAX_RELEVANT_OLDER = (sortByKey scoreKey (scored.filter
        (fun item => decide (cfg.RELEVANCE_THRESHOLD ≤ item.score)))).take k :=
    jsSliceTo_eq_take _ _
  obtain ⟨k, hk⟩ := h1
  have h2 : jsSliceTo
      (sortByKey scoreKey (scored.filter
        (fun item => decide (cfg.RELEVANCE_THRESHOLD ≤ item.score))))
      cfg.MAX_RELEVANT_OLDER <+~ scored := by
    rw [hk]
    refine List.Subperm.trans (List.Sublist.subperm (List.take_sublist _ _)) ?_
    refine List.Subperm.trans (List.Perm.subperm (sortByKey_perm scoreKey _)) ?_
    exact List.Sublist.subperm (List.filter_sublist _)
  have h3 : scored.map ScoredMessage.message = older := by
    rw [hscored, List.map_map]
    exact List.map_id older
  calc ((jsSliceTo (sortByKey scoreKey (scored.filter
          (fun item => decide (cfg.RELEVANCE_THRESHOLD ≤ item.score))))
          cfg.MAX_RELEVANT_OLDER).map ScoredMessage.message)
      <+~ scored.map ScoredMessage.message := subperm_map ScoredMessage.message h2
    _ = older := h3

/-- C2 counterexample: for an input that is not already chronologically
ordered, the short-history branch returns it unsorted; the claim as stated
over all histories is false. -/
theorem selectRelevantMessages_unsorted_cex :
    ¬ (selectRelevantMessages CONFIG [mUser "aaaa" 2, mUser "bbbb" 1]
        "x").Pairwise tsLE := by
  decide

/-- C2 (amended): for a chronologically ordered history, the selector output
is sorted by timestamp ascending and draws each input position at most once
(it is a permutation of a sublist of the history). -/
theorem selectRelevantMessages_sorted_subperm (cfg : Config)
    (history : List Message) (prompt : String) (hs : history.Pairwise tsLE) :
    (selectRelevantMessages cfg history prompt).Pairwise tsLE ∧
    selectRelevantMessages cfg history prompt <+~ history := by
  rw [selectRelevantMessages_eq]
  by_cases hnil : history = []
  · rw [if_pos hnil]
    exact ⟨List.Pairwise.nil, List.nil_subperm⟩
  · rw [if_neg hnil]
    by_cases holder : jsSliceTo history (-cfg.MIN_RECENT_MESSAGES) = []
    · rw [if_pos holder]
      obtain ⟨k, hk⟩ := jsSliceFrom_eq_drop history (-cfg.MIN_RECENT_MESSAGES)
      rw [hk]
      exact ⟨hs.sublist (List.drop_sublist k history),
        List.Sublist.subperm (List.drop_sublist k history)⟩
    · rw [if_neg holder]
      constructor
      · refine (sortByKey_pairwise tsKey (fun _ _ => True) _
          (pairwise_trivial _)).imp ?_
        intro a b hab
        rcases hab with hlt | ⟨heq, _⟩
        · exact le_of_lt hlt
        · exact le_of_eq heq
      · rw [List.subperm_ext_iff]
        intro x hx
        have hperm := sortByKey_perm tsKey
          ((jsSliceTo
              (sortByKey scoreKey
                (((jsSliceTo history (-cfg.MIN_RECENT_MESSAGES)).map
                    (fun msg => ScoredMessage.mk msg
                      (calculateRelevance cfg msg (extractKeywords cfg prompt)))).filter
                  (fun item => decide (cfg.RELEVANCE_THRESHOLD ≤ item.score))))
              cfg.MAX_RELEVANT_OLDER).map ScoredMessage.message ++
            jsSliceFrom history (-cfg.MIN_RECENT_MESSAGES))
        rw [hperm.count_eq, List.count_append]
        have hrel := (relevantOlder_subperm cfg
          (jsSliceTo history (-cfg.MIN_RECENT_MESSAGES))
          (extractKeywords cfg prompt)).count_le x
        have hhist : history.count x =
            (jsSliceTo history (-cfg.MIN_RECENT_MESSAGES)).count x +
            (jsSliceFrom history (-cfg.MIN_RECENT_MESSAGES)).count x := by
          conv_lhs => rw [← jsSlice_split history cfg.MIN_RECENT_MESSAGES]
          rw [List.count_append]
        omega

/-- Witness for C2 (amended) at a concrete sorted 4-message history. -/
theorem selectRelevantMessages_sorted_subperm_wit :
    ([mUser "aaaa" 1, mUser "bbbb" 2, mUser "cccc" 3,
        mUser "dddd" 4].Pairwise tsLE) ∧
    ((selectRelevantMessages CONFIG
        [mUser "aaaa" 1, mUser "bbbb" 2, mUser "cccc" 3, mUser "dddd" 4]
        "pizza dough").Pairwise tsLE ∧
      selectRelevantMessages CONFIG
        [mUser "aaaa" 1, mUser "bbbb" 2, mUser "cccc" 3, mUser "dddd" 4]
        "pizza dough" <+~
        [mUser "aaaa" 1, mUser "bbbb" 2, mUser "cccc" 3, mUser "dddd" 4]) :=
  ⟨by decide,
   selectRelevantMessages_sorted_subperm CONFIG
     [mUser "aaaa" 1, mUser "bbbb" 2, mUser "cccc" 3, mUser "dddd" 4]
     "pizza dough" (by decide)⟩

/-! ### C4: prompts with no surviving keyword -/

/-- With an empty keyword list every message scores exactly 0. -/
theorem calculateRelevance_nil (cfg : Config) (m : Message) :
    calculateRelevance cfg m [] = 0 := rfl

/-- C4 counterexample: with `RELEVANCE_THRESHOLD = 0` (allowed by the
claim's range `[0,1]`) a zero-scoring older message passes the `>=` filter,
so the selector returns more than the recent window. -/
theorem selectRelevantMessages_threshold_zero_cex :
    ¬ (selectRelevantMessages ⟨4000, 3, 3, 4, 0⟩
        [mUser "aaaa" 1, mUser "bbbb" 2, mUser "cccc" 3, mUser "dddd" 4] "" ~
      jsSliceFrom
        [mUser "aaaa" 1, mUser "bbbb" 2, mUser "cccc" 3, mUser "dddd" 4]
        (-(3 : Int))) := by
  intro h
  exact absurd h.length_eq (by decide)

/-- C4 (amended): when no keyword survives extraction and
`RELEVANCE_THRESHOLD` lies in `(0, 1]`, the selector returns exactly the
recent window (the last `MIN_RECENT_MESSAGES` entries of the history), with
no older message; the recent window is returned as-is when there are no
older candidates and otherwise re-sorted by timestamp, hence the conclusion
is stated as a permutation. -/
theorem selectRelevantMessages_no_keywords (cfg : Config)
    (history : List Message) (prompt : String)
    (hkw : extractKeywords cfg prompt = [])
    (hpos : 0 < cfg.RELEVANCE_THRESHOLD) (hone : cfg.RELEVANCE_THRESHOLD ≤ 1) :
    selectRelevantMessages cfg history prompt ~
      jsSliceFrom history (-cfg.MIN_RECENT_MESSAGES) := by
  rw [selectRelevantMessages_eq]
  by_cases hnil : history = []
  · rw [if_pos hnil, hnil]
    obtain ⟨k, hk⟩ := jsSliceFrom_eq_drop ([] : List Message) (-cfg.MIN_RECENT_MESSAGES)
    rw [hk, List.drop_nil]
  · rw [if_neg hnil]
    by_cases holder : jsSliceTo history (-cfg.MIN_RECENT_MESSAGES) = []
    · rw [if_pos holder]
    · rw [if_neg holder, hkw]
      have hfilter : (((jsSliceTo history (-cfg.MIN_RECENT_MESSAGES)).map
          (fun msg => ScoredMessage.mk msg (calculateRelevance cfg msg []))).filter
            (fun item => decide (cfg.RELEVANCE_THRESHOLD ≤ item.score))) = [] := by
        rw [List.filter_eq_nil_iff]
        intro p hp
        obtain ⟨m, _, hm⟩ := List.mem_map.mp hp
        rw [← hm]
        simp only [calculateRelevance_nil, decide_eq_true_eq]
        exact not_le.mpr hpos
      rw [hfilter]
      have htake : jsSliceTo (sortByKey scoreKey ([] : List ScoredMessage))
          cfg.MAX_RELEVANT_OLDER = [] := by
        obtain ⟨k, hk⟩ := jsSliceTo_eq_take
          (sortByKey scoreKey ([] : List ScoredMessage)) cfg.MAX_RELEVANT_OLDER
        rw [hk, show sortByKey scoreKey ([] : List ScoredMessage) = [] from rfl]
        exact List.take_nil
      rw [htake, List.map_nil, List.nil_append]
      exact sortByKey_perm tsKey _

/-- Witness for C4 (amended): a 4-message history and a prompt whose only
tokens are too short to be keywords, under the default configuration. -/
theorem selectRelevantMessages_no_keywords_wit :
    extractKeywords CONFIG "is it ok" = [] ∧
    (0 : ℚ) < CONFIG.RELEVANCE_THRESHOLD ∧ CONFIG.RELEVANCE_THRESHOLD ≤ 1 ∧
    (selectRelevantMessages CONFIG
        [mUser "pizza pizza pizza" 1, mUser "bbbb" 2, mUser "cccc" 3,
          mUser "dddd" 4] "is it ok" ~
      jsSliceFrom
        [mUser "pizza pizza pizza" 1, mUser "bbbb" 2, mUser "cccc" 3,
          mUser "dddd" 4] (-CONFIG.MIN_RECENT_MESSAGES)) :=
  ⟨by decide, by decide, by decide,
   selectRelevantMessages_no_keywords CONFIG
     [mUser "pizza pizza pizza" 1, mUser "bbbb" 2, mUser "cccc" 3, mUser "dddd" 4]
     "is it ok" (by decide) (by decide) (by decide)⟩

/-! ### C6 and C8: the relevance scorer -/

/-- On a non-empty keyword list the score is the exact quotient
(matching keywords) / (total keywords). -/
theorem calculateRelevance_eq_div (cfg : Config) (m : Message)
    {keywords : List String} (h : keywords ≠ []) :
    calculateRelevance cfg m keywords =
      (keywords.countP (fun kw => keywordMatches cfg m kw) : ℚ) /
        (keywords.length : ℚ) := by
  rw [calculateRelevance, if_neg h, Rat.mkRat_eq_div]
  push_cast
  rfl

/-- C8: the scorer is total and never divides by zero: an empty keyword list
short-circuits to 0, and a non-empty one yields matches/total, a value in
[0, 1]. -/
theorem calculateRelevance_total (cfg : Config) (m : Message)
    (keywords : List String) :
    (keywords = [] → calculateRelevance cfg m keywords = 0) ∧
    (keywords ≠ [] →
      calculateRelevance cfg m keywords =
        (keywords.countP (fun kw => keywordMatches cfg m kw) : ℚ) /
          (keywords.length : ℚ) ∧
      0 ≤ calculateRelevance cfg m keywords ∧
      calculateRelevance cfg m keywords ≤ 1) := by
  constructor
  · intro h
    rw [calculateRelevance, if_pos h]
  · intro h
    have hlen : 0 < keywords.length := List.length_pos.mpr h
    have hlenq : (0 : ℚ) < (keywords.length : ℚ) := by exact_mod_cast hlen
    have heq := calculateRelevance_eq_div cfg m h
    refine ⟨heq, ?_, ?_⟩
    · rw [heq]
      exact div_nonneg (Nat.cast_nonneg _) (Nat.cast_nonneg _)
    · rw [heq, div_le_one hlenq]
      exact_mod_cast List.countP_le_length _

/-- Witness for C8 on a two-keyword query with one match. -/
theorem calculateRelevance_total_wit :
    (["pizza", "wxyz"] ≠ ([] : List String)) ∧
    (calculateRelevance CONFIG (mUser "I love pizza" 1) ["pizza", "wxyz"] =
        ((["pizza", "wxyz"].countP
            (fun kw => keywordMatches CONFIG (mUser "I love pizza" 1) kw) : ℚ) /
          ((["pizza", "wxyz"].length : Nat) : ℚ)) ∧
      0 ≤ calculateRelevance CONFIG (mUser "I love pizza" 1) ["pizza", "wxyz"] ∧
      calculateRelevance CONFIG (mUser "I love pizza" 1) ["pizza", "wxyz"] ≤ 1) :=
  ⟨by decide,
   (calculateRelevance_total CONFIG (mUser "I love pizza" 1)
     ["pizza", "wxyz"]).2 (by decide)⟩

/-- C6: appending one keyword that matches the message never decreases the
score: (m+1)/(k+1) is at least m/k. -/
theorem calculateRelevance_monotone (cfg : Config) (m : Message)
    (keywords : List String) (kw : String)
    (hmatch : keywordMatches cfg m kw = true) :
    calculateRelevance cfg m keywords ≤
      calculateRelevance cfg m (keywords ++ [kw]) := by
  have happ : keywords ++ [kw] ≠ [] := by simp
  have hcount : (keywords ++ [kw]).countP (fun k => keywordMatches cfg m k) =
      keywords.countP (fun k => keywordMatches cfg m k) + 1 := by
    rw [List.countP_append]
    simp [List.countP_cons, hmatch]
  rcases eq_or_ne keywords [] with rfl | hne
  · rw [calculateRelevance, if_pos rfl, calculateRelevance_eq_div cfg m happ]
    rw [hcount]
    positivity
  · rw [calculateRelevance_eq_div cfg m hne, calculateRelevance_eq_div cfg m happ,
      hcount, List.length_append]
    have hlen : 0 < keywords.length := List.length_pos.mpr hne
    have hc := List.countP_le_length (p := fun k => keywordMatches cfg m k)
      (l := keywords)
    have h1 : (0 : ℚ) < (keywords.length : ℚ) := by exact_mod_cast hlen
    have h2 : (0 : ℚ) < ((keywords.length + 1 : Nat) : ℚ) := by positivity
    simp only [List.length_singleton]
    rw [div_le_div_iff₀ h1 h2]
    have hcq : (keywords.countP (fun k => keywordMatches cfg m k) : ℚ) ≤
        (keywords.length : ℚ) := by exact_mod_cast hc
    push_cast
    nlinarith [hcq]

/-- Witness for C6: adding the matching keyword "pizza" to a one-keyword
query. -/
theorem calculateRelevance_monotone_wit :
    keywordMatches CONFIG (mUser "I love pizza" 1) "pizza" = true ∧
    calculateRelevance CONFIG (mUser "I love pizza" 1) ["wxyz"] ≤
      calculateRelevance CONFIG (mUser "I love pizza" 1) ["wxyz", "pizza"] :=
  ⟨by decide,
   calculateRelevance_monotone CONFIG (mUser "I love pizza" 1) ["wxyz"] "pizza"
     (by decide)⟩

/-! ### C5: the keyword extractor -/

theorem uint32_le_toNat {a b : UInt32} (h : a ≤ b) : a.toNat ≤ b.toNat := by
  rw [UInt32.le_def, BitVec.le_def] at h
  exact h

theorem char_toNat_ofNat_of_lt {n : Nat} (h : n < 55296) : (Char.ofNat n).toNat = n := by
  unfold Char.ofNat
  rw [dif_pos (Or.inl h)]
  simp [Char.ofNatAux, Char.toNat, UInt32.toNat]

/-- ASCII lowercasing never produces an uppercase letter. -/
theorem toLower_not_upper (c : Char) : (Char.toLower c).isUpper = false := by
  unfold Char.toLower
  by_cases h : c.toNat ≥ 65 ∧ c.toNat ≤ 90
  · rw [if_pos h]
    have hval : (Char.ofNat (c.toNat + 32)).toNat = c.toNat + 32 :=
      char_toNat_ofNat_of_lt (by omega)
    simp only [Char.isUpper]
    have h90 : ¬ ((Char.ofNat (c.toNat + 32)).val ≤ 90) := by
      intro hle
      have h2 : (Char.ofNat (c.toNat + 32)).toNat ≤ (90 : UInt32).toNat :=
        uint32_le_toNat hle
      have h90n : (90 : UInt32).toNat = 90 := rfl
      omega
    simp [h90]
  · rw [if_neg h]
    simp only [Char.isUpper]
    rcases not_and_or.mp h with h1 | h2
    · have hx : ¬ ((65 : UInt32) ≤ c.val) := by
        intro hle
        exact h1 (uint32_le_toNat hle)
      simp [hx]
    · have hx : ¬ (c.val ≤ (90 : UInt32)) := by
        intro hle
        exact h2 (uint32_le_toNat hle)
      simp [hx]

/-- Characters of the pieces of `consPiece c P` are `c` or characters of
pieces of `P`. -/
theorem consPiece_chars (c : Char) (P : List (List Char)) :
    ∀ p ∈ consPiece c P, ∀ x ∈ p, x = c ∨ ∃ q ∈ P, x ∈ q := by
  intro p hp x hx
  cases P with
  | nil =>
    simp only [consPiece] at hp
    rcases List.mem_cons.mp hp with rfl | hp
    · rcases List.mem_cons.mp hx with rfl | hx
      · exact Or.inl rfl
      · simp at hx
    · simp at hp
  | cons q qs =>
    simp only [consPiece] at hp
    rcases List.mem_cons.mp hp with rfl | hp
    · rcases List.mem_cons.mp hx with rfl | hx
      · exact Or.inl rfl
      · exact Or.inr ⟨q, List.mem_cons_self q qs, hx⟩
    · exact Or.inr ⟨p, List.mem_cons_of_mem q hp, hx⟩

/-- Every character of every piece of a split comes from the input. -/
theorem jsSplitWs_chars : ∀ (l : List Char), ∀ p ∈ jsSplitWs l, ∀ c ∈ p, c ∈ l := by
  intro l
  induction l with
  | nil =>
    intro p hp c hc
    simp [jsSplitWs] at hp
    subst hp
    simp at hc
  | cons a cs ih =>
    intro p hp c hc
    cases cs with
    | nil =>
      rw [jsSplitWs] at hp
      by_cases ha : a.isWhitespace
      · rw [if_pos ha] at hp
        simp at hp
        rcases hp with rfl | rfl <;> simp at hc
      · rw [if_neg ha] at hp
        rcases consPiece_chars a [[]] p hp c hc with rfl | ⟨q, hq, hcq⟩
        · exact List.mem_cons_self c []
        · simp at hq
          subst hq
          simp at hcq
    | cons d ds =>
      rw [jsSplitWs] at hp
      by_cases ha : a.isWhitespace
      · rw [if_pos ha] at hp
        by_cases hd : d.isWhitespace
        · rw [if_pos hd] at hp
          exact List.mem_cons_of_mem a (ih p hp c hc)
        · rw [if_neg hd] at hp
          rcases List.mem_cons.mp hp with rfl | hp
          · simp at hc
          · exact List.mem_cons_of_mem a (ih p hp c hc)
      · rw [if_neg ha] at hp
        rcases consPiece_chars a (jsSplitWs (d :: ds)) p hp c hc with rfl | ⟨q, hq, hcq⟩
        · exact List.mem_cons_self c (d :: ds)
        · exact List.mem_cons_of_mem a (ih q hq c hcq)

/-- Keys after a `bump`: unchanged if present, appended otherwise. -/
theorem bump_keys (w : String) (acc : List (String × Nat)) :
    (bump w acc).map Prod.fst =
      if w ∈ acc.map Prod.fst then acc.map Prod.fst
      else acc.map Prod.fst ++ [w] := by
  induction acc with
  | nil => simp [bump]
  | cons p rest ih =>
    obtain ⟨k, c⟩ := p
    by_cases hk : k = w
    · subst hk
      simp [bump]
    · rw [bump, if_neg hk]
      by_cases hw : w ∈ (rest.map Prod.fst)
      · simp only [List.map_cons, ih, if_pos hw]
        rw [if_pos (List.mem_cons_of_mem k hw)]
      · simp only [List.map_cons, ih, if_neg hw]
        rw [if_neg]
        · simp
        · intro hmem
          rcases List.mem_cons.mp hmem with h | h
          · exact hk h.symm
          · exact hw h

theorem bump_keys_nodup (w : String) (acc : List (String × Nat))
    (h : (acc.map Prod.fst).Nodup) : ((bump w acc).map Prod.fst).Nodup := by
  rw [bump_keys]
  by_cases hw : w ∈ acc.map Prod.fst
  · rw [if_pos hw]
    exact h
  · rw [if_neg hw]
    rw [List.nodup_append]
    exact ⟨h, List.nodup_singleton w, by simpa using hw⟩

/-- `bump` adds one to the count stored under `w` and nothing else. -/
theorem lookupD_bump (k w : String) (acc : List (String × Nat)) :
    lookupD k (bump w acc) = lookupD k acc + (if k = w then 1 else 0) := by
  induction acc with
  | nil =>
    by_cases hk : k = w
    · subst hk
      simp [bump, lookupD]
    · have hk2 : ¬ (w = k) := fun h => hk h.symm
      simp [bump, lookupD, hk, hk2]
  | cons p rest ih =>
    obtain ⟨k1, c⟩ := p
    by_cases h1 : k1 = w
    · subst h1
      by_cases h2 : k1 = k
      · subst h2
        simp [bump, lookupD]
      · have h2s : ¬ (k = k1) := fun h => h2 h.symm
        simp [bump, lookupD, h2, h2s]
    · by_cases h2 : k1 = k
      · subst h2
        have h1s : ¬ (k1 = w) := h1
        simp [bump, lookupD, h1s]
      · simp [bump, lookupD, h1, h2, ih]

/-- In an association list with distinct keys, membership determines the
stored count. -/
theorem lookupD_mem (acc : List (String × Nat)) (p : String × Nat)
    (hnd : (acc.map Prod.fst).Nodup) (hp : p ∈ acc) : lookupD p.1 acc = p.2 := by
  induction acc with
  | nil => simp at hp
  | cons q rest ih =>
    obtain ⟨k1, c⟩ := q
    rw [List.map_cons, List.nodup_cons] at hnd
    rcases List.mem_cons.mp hp with rfl | hp
    · rw [lookupD, if_pos rfl]
    · rw [lookupD]
      have hne : k1 ≠ p.1 := by
        intro he
        exact hnd.1 (he ▸ List.mem_map.mpr ⟨p, hp, rfl⟩)
      rw [if_neg hne]
      exact ih hnd.2 hp

/-- Each entry of the frequency fold counts its key's occurrences. -/
theorem foldl_bump_count : ∀ (ws : List String) (acc : List (String × Nat)),
    (acc.map Prod.fst).Nodup →
    ∀ p ∈ ws.foldl (fun a w => bump w a) acc,
      p.2 = lookupD p.1 acc + ws.count p.1 := by
  intro ws
  induction ws with
  | nil =>
    intro acc hnd p hp
    rw [List.foldl_nil] at hp
    rw [lookupD_mem acc p hnd hp]
    simp
  | cons w ws ih =>
    intro acc hnd p hp
    rw [List.foldl_cons] at hp
    have hrec := ih (bump w acc) (bump_keys_nodup w acc hnd) p hp
    have hlb := lookupD_bump p.1 w acc
    have hcc : (w :: ws).count p.1 = ws.count p.1 + (if p.1 = w then 1 else 0) := by
      rw [List.count_cons]
      by_cases hw : p.1 = w
      · simp [hw]
      · have hw2 : ¬ (w = p.1) := fun h => hw h.symm
        simp [hw, hw2]
    rw [hrec, hlb, hcc]
    omega

/-- `fodFrom` depends on `seen` only through membership. -/
theorem fodFrom_congr : ∀ (ws : List String) (s1 s2 : List String),
    (∀ x, x ∈ s1 ↔ x ∈ s2) → fodFrom s1 ws = fodFrom s2 ws := by
  intro ws
  induction ws with
  | nil => intro s1 s2 _; rfl
  | cons w ws ih =>
    intro s1 s2 h
    rw [fodFrom, fodFrom]
    by_cases hw : w ∈ s1
    · rw [if_pos hw, if_pos ((h w).mp hw), ih s1 s2 h]
    · rw [if_neg hw, if_neg (fun hc => hw ((h w).mpr hc))]
      rw [ih (w :: s1) (w :: s2) (by intro x; simp [h x])]

/-- Keys of the frequency fold: the incoming keys followed by the first
occurrences of the new tokens. -/
theorem foldl_bump_keys : ∀ (ws : List String) (acc : List (String × Nat)),
    (ws.foldl (fun a w => bump w a) acc).map Prod.fst =
      acc.map Prod.fst ++ fodFrom (acc.map Prod.fst) ws := by
  intro ws
  induction ws with
  | nil =>
    intro acc
    rw [List.foldl_nil, fodFrom, List.append_nil]
  | cons w ws ih =>
    intro acc
    rw [List.foldl_cons, ih, bump_keys]
    by_cases hw : w ∈ acc.map Prod.fst
    · rw [if_pos hw, fodFrom, if_pos hw]
    · rw [if_neg hw, fodFrom, if_neg hw]
      rw [List.append_assoc, List.singleton_append]
      congr 1
      congr 1
      exact fodFrom_congr ws _ _ (by intro x; simp [or_comm])

/-- First-occurrence lists are duplicate-free and avoid `seen`. -/
theorem fodFrom_props : ∀ (ws seen : List String),
    (fodFrom seen ws).Nodup ∧ ∀ x ∈ fodFrom seen ws, x ∉ seen := by
  intro ws
  induction ws with
  | nil => intro seen; exact ⟨List.Pairwise.nil, by simp [fodFrom]⟩
  | cons w ws ih =>
    intro seen
    rw [fodFrom]
    by_cases hw : w ∈ seen
    · rw [if_pos hw]
      exact ih seen
    · rw [if_neg hw]
      obtain ⟨hnd, hmem⟩ := ih (w :: seen)
      constructor
      · rw [List.nodup_cons]
        exact ⟨fun hc => (hmem w hc) (List.mem_cons_self w seen), hnd⟩
      · intro x hx
        rcases List.mem_cons.mp hx with rfl | hx
        · exact hw
        · exact fun hxs => hmem x hx (List.mem_cons_of_mem w hxs)

theorem fodFrom_subset : ∀ (ws seen : List String), ∀ x ∈ fodFrom seen ws, x ∈ ws := by
  intro ws
  induction ws with
  | nil => intro seen x hx; simp [fodFrom] at hx
  | cons w ws ih =>
    intro seen x hx
    rw [fodFrom] at hx
    by_cases hw : w ∈ seen
    · rw [if_pos hw] at hx
      exact List.mem_cons_of_mem w (ih seen x hx)
    · rw [if_neg hw] at hx
      rcases List.mem_cons.mp hx with rfl | hx
      · exact List.mem_cons_self x ws
      · exact List.mem_cons_of_mem w (ih (w :: seen) x hx)

/-- A duplicate-free list is ordered by its own `indexOf`. -/
theorem nodup_pairwise_indexOf (l : List String) (h : l.Nodup) :
    l.Pairwise (fun a b => l.indexOf a < l.indexOf b) := by
  induction l with
  | nil => exact List.Pairwise.nil
  | cons x xs ih =>
    rw [List.nodup_cons] at h
    refine List.Pairwise.cons ?_ ?_
    · intro b hb
      have hbx : x ≠ b := fun he => h.1 (he ▸ hb)
      rw [List.indexOf_cons_self, List.indexOf_cons_ne _ hbx]
      exact Nat.succ_pos _
    · refine ((ih h.2).imp_of_mem ?_)
      intro a b ha hb hab
      have hax : x ≠ a := fun he => h.1 (he ▸ ha)
      have hbx : x ≠ b := fun he => h.1 (he ▸ hb)
      rw [List.indexOf_cons_ne _ hax, List.indexOf_cons_ne _ hbx]
      omega

/-- The three boolean conjuncts of the keyword filter. -/
theorem keywordPred_parts {cfg : Config} {w : String} (h : keywordPred cfg w = true) :
    cfg.MIN_KEYWORD_LENGTH ≤ (w.length : Int) ∧ w ∉ stopWords ∧
      isNumericStr w = false := by
  unfold keywordPred at h
  rw [Bool.and_eq_true, Bool.and_eq_true] at h
  refine ⟨of_decide_eq_true h.1.1, ?_, ?_⟩
  · have h2 := h.1.2
    simpa using h2
  · have h3 := h.2
    simpa using h3

/-- Members of `wordsOf` pass the filter and contain no uppercase letter. -/
theorem wordsOf_mem (cfg : Config) (text : String) (w : String)
    (hw : w ∈ wordsOf cfg text) :
    keywordPred cfg w = true ∧ ∀ c ∈ w.data, c.isUpper = false := by
  unfold wordsOf at hw
  have h1 := List.mem_filter.mp hw
  refine ⟨h1.2, ?_⟩
  obtain ⟨p, hp, hpw⟩ := List.mem_map.mp h1.1
  intro c hc
  have hcp : c ∈ p := by
    rw [← hpw] at hc
    exact hc
  have hcl := jsSplitWs_chars _ p hp c hcp
  obtain ⟨c1, hc1, hcn⟩ := List.mem_map.mp hcl
  obtain ⟨c0, _, hct⟩ := List.mem_map.mp hc1
  rw [← hcn]
  unfold normalizeChar
  split
  · rw [← hct]
    exact toLower_not_upper c0
  · rfl

/-- A prompt with no text yields no keywords (the single empty split piece
fails the positive length bound). -/
theorem extractKeywords_empty (cfg : Config) (hmin : 1 ≤ cfg.MIN_KEYWORD_LENGTH) :
    extractKeywords cfg "" = [] := by
  have hwnil : wordsOf cfg "" = [] := by
    unfold wordsOf
    have hdata : ("" : String).data = [] := rfl
    rw [hdata]
    have hpred : keywordPred cfg "" = false := by
      unfold keywordPred
      have hne : ¬ (cfg.MIN_KEYWORD_LENGTH ≤ (0 : Int)) := by omega
      simp [hne]
    simp [jsSplitWs, hpred]
  unfold extractKeywords
  rw [hwnil]
  rfl

/-- C5: the extractor returns at most 10 distinct lowercase tokens, each
long enough, not a stop word and not purely numeric, ordered by descending
frequency in the filtered token list with ties broken by first-occurrence
order; the empty prompt yields no keywords. -/
theorem extractKeywords_spec (cfg : Config) (text : String)
    (hmin : 1 ≤ cfg.MIN_KEYWORD_LENGTH) :
    (extractKeywords cfg text).length ≤ 10 ∧
    (extractKeywords cfg text).Nodup ∧
    (∀ w ∈ extractKeywords cfg text,
      cfg.MIN_KEYWORD_LENGTH ≤ (w.length : Int) ∧ w ∉ stopWords ∧
      isNumericStr w = false ∧ ∀ c ∈ w.data, c.isUpper = false) ∧
    (extractKeywords cfg text).Pairwise (fun a b =>
      (wordsOf cfg text).count b < (wordsOf cfg text).count a ∨
      ((wordsOf cfg text).count a = (wordsOf cfg text).count b ∧
        (fod (wordsOf cfg text)).indexOf a < (fod (wordsOf cfg text)).indexOf b)) ∧
    (text = "" → extractKeywords cfg text = []) := by
  have hkeys : (countTokens (wordsOf cfg text)).map Prod.fst = fod (wordsOf cfg text) := by
    unfold countTokens fod
    simpa using foldl_bump_keys (wordsOf cfg text) []
  have hknodup : ((countTokens (wordsOf cfg text)).map Prod.fst).Nodup := by
    rw [hkeys]
    exact (fodFrom_props (wordsOf cfg text) []).1
  have hcounts : ∀ p ∈ countTokens (wordsOf cfg text),
      p.2 = (wordsOf cfg text).count p.1 := by
    intro p hp
    have h := foldl_bump_count (wordsOf cfg text) [] (by simp) p hp
    simpa [lookupD] using h
  have hperm : sortByKey freqKey (countTokens (wordsOf cfg text)) ~
      countTokens (wordsOf cfg text) := sortByKey_perm freqKey _
  have hmem_cl : ∀ p ∈ (sortByKey freqKey (countTokens (wordsOf cfg text))).take 10,
      p ∈ countTokens (wordsOf cfg text) := by
    intro p hp
    exact hperm.mem_iff.mp ((List.take_sublist 10 _).subset hp)
  have hmem_ws : ∀ w ∈ extractKeywords cfg text, w ∈ wordsOf cfg text := by
    intro w hw
    unfold extractKeywords at hw
    obtain ⟨p, hp, hpt⟩ := List.mem_map.mp hw
    have hpcl := hmem_cl p hp
    have hfst : p.1 ∈ (countTokens (wordsOf cfg text)).map Prod.fst :=
      List.mem_map.mpr ⟨p, hpcl, rfl⟩
    rw [hkeys] at hfst
    rw [← hpt]
    exact fodFrom_subset (wordsOf cfg text) [] p.1 hfst
  refine ⟨?_, ?_, ?_, ?_, ?_⟩
  · unfold extractKeywords
    rw [List.length_map]
    exact List.length_take_le 10 _
  · unfold extractKeywords
    have h1 : ((sortByKey freqKey (countTokens (wordsOf cfg text))).map Prod.fst).Nodup :=
      (hperm.map Prod.fst).nodup_iff.mpr hknodup
    exact h1.sublist ((List.take_sublist 10 _).map Prod.fst)
  · intro w hw
    have hmem := hmem_ws w hw
    obtain ⟨hpred, hlower⟩ := wordsOf_mem cfg text w hmem
    obtain ⟨h1, h2, h3⟩ := keywordPred_parts hpred
    exact ⟨h1, h2, h3, hlower⟩
  · have hR : (countTokens (wordsOf cfg text)).Pairwise
        (fun p q => (fod (wordsOf cfg text)).indexOf p.1 <
          (fod (wordsOf cfg text)).indexOf q.1) := by
      have h1 := nodup_pairwise_indexOf (fod (wordsOf cfg text))
        (fodFrom_props (wordsOf cfg text) []).1
      have h2 : ((countTokens (wordsOf cfg text)).map Prod.fst).Pairwise
          (fun a b => (fod (wordsOf cfg text)).indexOf a <
            (fod (wordsOf cfg text)).indexOf b) := by
        rw [hkeys]
        exact h1
      exact List.Pairwise.of_map Prod.fst (fun a b h => h) h2
    have hS := sortByKey_pairwise freqKey _ _ hR
    have hT : ((sortByKey freqKey (countTokens (wordsOf cfg text))).take 10).Pairwise
        (fun p q => (wordsOf cfg text).count q.1 < (wordsOf cfg text).count p.1 ∨
          ((wordsOf cfg text).count p.1 = (wordsOf cfg text).count q.1 ∧
            (fod (wordsOf cfg text)).indexOf p.1 <
              (fod (wordsOf cfg text)).indexOf q.1)) := by
      refine ((hS.sublist (List.take_sublist 10 _)).imp_of_mem ?_)
      intro p q hp hq hpq
      have hp2 := hcounts p (hmem_cl p hp)
      have hq2 := hcounts q (hmem_cl q hq)
      unfold freqKey at hpq
      rw [hp2, hq2] at hpq
      rcases hpq with hlt | ⟨heq, hidx⟩
      · left
        omega
      · right
        exact ⟨by omega, hidx⟩
    unfold extractKeywords
    exact List.pairwise_map.mpr hT
  · intro ht
    rw [ht]
    exact extractKeywords_empty cfg hmin

/-- Witness for C5 at the default configuration and a small prompt. -/
theorem extractKeywords_spec_wit :
    (1 ≤ CONFIG.MIN_KEYWORD_LENGTH) ∧
    ((extractKeywords CONFIG "Pizza pizza, dough!").length ≤ 10 ∧
    (extractKeywords CONFIG "Pizza pizza, dough!").Nodup ∧
    (∀ w ∈ extractKeywords CONFIG "Pizza pizza, dough!",
      CONFIG.MIN_KEYWORD_LENGTH ≤ (w.length : Int) ∧ w ∉ stopWords ∧
      isNumericStr w = false ∧ ∀ c ∈ w.data, c.isUpper = false) ∧
    (extractKeywords CONFIG "Pizza pizza, dough!").Pairwise (fun a b =>
      (wordsOf CONFIG "Pizza pizza, dough!").count b <
        (wordsOf CONFIG "Pizza pizza, dough!").count a ∨
      ((wordsOf CONFIG "Pizza pizza, dough!").count a =
          (wordsOf CONFIG "Pizza pizza, dough!").count b ∧
        (fod (wordsOf CONFIG "Pizza pizza, dough!")).indexOf a <
          (fod (wordsOf CONFIG "Pizza pizza, dough!")).indexOf b)) ∧
    (("Pizza pizza, dough!" : String) = "" →
      extractKeywords CONFIG "Pizza pizza, dough!" = [])) :=
  ⟨by decide, extractKeywords_spec CONFIG "Pizza pizza, dough!" (by decide)⟩

/-! ### C9: the stats accessor -/

theorem foldl_add_length (l : List Message) (n : Nat) :
    l.foldl (fun sum msg => sum + msg.content.length) n =
      n + (l.map (fun m => m.content.length)).sum := by
  induction l generalizing n with
  | nil => simp
  | cons m rest ih =>
    rw [List.foldl_cons, ih, List.map_cons, List.sum_cons]
    omega

theorem ratDiv_eq_div (a b : Int) : ratDiv a b = (a : ℚ) / (b : ℚ) := by
  unfold ratDiv
  split
  case isTrue h =>
    rw [Rat.mkRat_eq_div]
    congr 1
    exact_mod_cast Int.toNat_of_nonneg h
  case isFalse h =>
    rw [Rat.mkRat_eq_div]
    have hb : (((-b).toNat : Nat) : ℚ) = ((-b : Int) : ℚ) := by
      exact_mod_cast Int.toNat_of_nonneg (by omega)
    rw [hb]
    push_cast
    exact neg_div_neg_eq (a : ℚ) (b : ℚ)

/-- C9: the stats accessor reports the history size, the count of messages
selected as relevant, the count and total characters after budgeting, and
the utilization percentage (totalChars / maxContextChars * 100, rounded to
one decimal place); the pipeline is a pure function of its inputs, so
reading the stats cannot change `buildOptimizedContext`, whose output is
empty exactly when the stats report zero included messages. -/
theorem getContextStats_spec (cfg : Config) (hist : List Message)
    (prompt : String) :
    (getContextStats cfg hist prompt).totalMessages = hist.length ∧
    (getContextStats cfg hist prompt).relevantMessages =
      (selectRelevantMessages cfg hist prompt).length ∧
    (getContextStats cfg hist prompt).includedMessages =
      (truncateToCharLimit (selectRelevantMessages cfg hist prompt)
        cfg.MAX_CONTEXT_CHARS).length ∧
    (getContextStats cfg hist prompt).totalChars =
      ((truncateToCharLimit (selectRelevantMessages cfg hist prompt)
        cfg.MAX_CONTEXT_CHARS).map (fun m => m.content.length)).sum ∧
    (getContextStats cfg hist prompt).utilizationPercent =
      toFixed1 ((((getContextStats cfg hist prompt).totalChars : ℚ) /
        (cfg.MAX_CONTEXT_CHARS : ℚ)) * 100) ∧
    ((getContextStats cfg hist prompt).includedMessages = 0 ↔
      buildOptimizedContext cfg hist prompt = "") := by
  refine ⟨rfl, rfl, rfl, ?_, ?_, ?_⟩
  · simpa using foldl_add_length
      (truncateToCharLimit (selectRelevantMessages cfg hist prompt)
        cfg.MAX_CONTEXT_CHARS) 0
  · show toFixed1 (ratDiv _ _ * 100) = _
    congr 1
    rw [ratDiv_eq_div]
    push_cast
    rfl
  · constructor
    · intro h
      unfold buildOptimizedContext
      rw [if_neg]
      have h0 : (truncateToCharLimit (selectRelevantMessages cfg hist prompt)
          cfg.MAX_CONTEXT_CHARS).length = 0 := h
      omega
    · intro h
      by_contra hne
      unfold buildOptimizedContext at h
      rw [if_pos] at h
      · have hlen := congrArg String.length h
        rw [String.length_append, String.length_append] at hlen
        have h24 : ("Conversation context:\n\n" : String).length = 23 := rfl
        have h0 : ("" : String).length = 0 := rfl
        omega
      · have h0 : (truncateToCharLimit (selectRelevantMessages cfg hist prompt)
            cfg.MAX_CONTEXT_CHARS).length ≠ 0 := hne
        omega

/-- Witness for C9 at a concrete history and prompt. -/
theorem getContextStats_spec_wit :
    (getContextStats CONFIG [mUser "hey there" 1] "x").totalMessages =
      ([mUser "hey there" 1] : List Message).length ∧
    (getContextStats CONFIG [mUser "hey there" 1] "x").relevantMessages =
      (selectRelevantMessages CONFIG [mUser "hey there" 1] "x").length ∧
    (getContextStats CONFIG [mUser "hey there" 1] "x").includedMessages =
      (truncateToCharLimit (selectRelevantMessages CONFIG [mUser "hey there" 1] "x")
        CONFIG.MAX_CONTEXT_CHARS).length ∧
    (getContextStats CONFIG [mUser "hey there" 1] "x").totalChars =
      ((truncateToCharLimit (selectRelevantMessages CONFIG [mUser "hey there" 1] "x")
        CONFIG.MAX_CONTEXT_CHARS).map (fun m => m.content.length)).sum ∧
    (getContextStats CONFIG [mUser "hey there" 1] "x").utilizationPercent =
      toFixed1 ((((getContextStats CONFIG [mUser "hey there" 1] "x").totalChars : ℚ) /
        (CONFIG.MAX_CONTEXT_CHARS : ℚ)) * 100) ∧
    ((getContextStats CONFIG [mUser "hey there" 1] "x").includedMessages = 0 ↔
      buildOptimizedContext CONFIG [mUser "hey there" 1] "x" = "") :=
  getContextStats_spec CONFIG [mUser "hey there" 1] "x"

/-! ### C10: configuration loading -/

theorem jsOrInt_spec (v : Option Int) (d : Int) (hd : d ≠ 0) :
    jsOrInt v d ≠ 0 ∧ ((v = none ∨ v = some 0) → jsOrInt v d = d) := by
  cases v with
  | none => exact ⟨hd, fun _ => rfl⟩
  | some n =>
    by_cases hn : n = 0
    · subst hn
      exact ⟨by simp [jsOrInt, hd], fun _ => by simp [jsOrInt]⟩
    · refine ⟨by simp [jsOrInt, hn], ?_⟩
      intro h
      rcases h with h | h
      · exact Option.noConfusion h
      · exact absurd (Option.some.inj h) hn

theorem jsOrQ_spec (v : Option ℚ) (d : ℚ) (hd : d ≠ 0) :
    jsOrQ v d ≠ 0 ∧ ((v = none ∨ v = some 0) → jsOrQ v d = d) := by
  cases v with
  | none => exact ⟨hd, fun _ => rfl⟩
  | some q =>
    by_cases hq : q = 0
    · subst hq
      exact ⟨by simp [jsOrQ, hd], fun _ => by simp [jsOrQ]⟩
    · refine ⟨by simp [jsOrQ, hq], ?_⟩
      intro h
      rcases h with h | h
      · exact Option.noConfusion h
      · exact absurd (Option.some.inj h) hq

theorem threshold_default_ne_zero : (mkRat 3 10 : ℚ) ≠ 0 := by decide

/-- C10: `parseInt(x) || default` (resp. `parseFloat`) silently falls back
to the built-in default whenever the environment value fails to parse or
parses to 0, so every effective configuration value is non-zero; in
particular no field can be configured to 0 through the environment. -/
theorem createConfig_spec (env : Env) :
    (createConfig env).MAX_CONTEXT_CHARS ≠ 0 ∧
    (createConfig env).MIN_RECENT_MESSAGES ≠ 0 ∧
    (createConfig env).MAX_RELEVANT_OLDER ≠ 0 ∧
    (createConfig env).MIN_KEYWORD_LENGTH ≠ 0 ∧
    (createConfig env).RELEVANCE_THRESHOLD ≠ 0 ∧
    ((jsParseInt env.MAX_CONTEXT_CHARS = none ∨
        jsParseInt env.MAX_CONTEXT_CHARS = some 0) →
      (createConfig env).MAX_CONTEXT_CHARS = 4000) ∧
    ((jsParseInt env.MIN_RECENT_MESSAGES = none ∨
        jsParseInt env.MIN_RECENT_MESSAGES = some 0) →
      (createConfig env).MIN_RECENT_MESSAGES = 3) ∧
    ((jsParseInt env.MAX_RELEVANT_OLDER = none ∨
        jsParseInt env.MAX_RELEVANT_OLDER = some 0) →
      (createConfig env).MAX_RELEVANT_OLDER = 3) ∧
    ((jsParseInt env.MIN_KEYWORD_LENGTH = none ∨
        jsParseInt env.MIN_KEYWORD_LENGTH = some 0) →
      (createConfig env).MIN_KEYWORD_LENGTH = 4) ∧
    ((jsParseFloat env.RELEVANCE_THRESHOLD = none ∨
        jsParseFloat env.RELEVANCE_THRESHOLD = some 0) →
      (createConfig env).RELEVANCE_THRESHOLD = (3 : ℚ) / 10) := by
  have hq : (mkRat 3 10 : ℚ) = (3 : ℚ) / 10 := by
    rw [Rat.mkRat_eq_div]
    norm_num
  refine ⟨(jsOrInt_spec _ 4000 (by norm_num)).1,
    (jsOrInt_spec _ 3 (by norm_num)).1,
    (jsOrInt_spec _ 3 (by norm_num)).1,
    (jsOrInt_spec _ 4 (by norm_num)).1,
    (jsOrQ_spec _ (mkRat 3 10) threshold_default_ne_zero).1,
    (jsOrInt_spec _ 4000 (by norm_num)).2,
    (jsOrInt_spec _ 3 (by norm_num)).2,
    (jsOrInt_spec _ 3 (by norm_num)).2,
    (jsOrInt_spec _ 4 (by norm_num)).2,
    fun h => (hq ▸ (jsOrQ_spec _ (mkRat 3 10) threshold_default_ne_zero).2 h)⟩

/-- Witness for C10 at the empty environment. -/
theorem createConfig_spec_wit :
    (createConfig ⟨none, none, none, none, none⟩).MAX_CONTEXT_CHARS ≠ 0 ∧
    (createConfig ⟨none, none, none, none, none⟩).MIN_RECENT_MESSAGES ≠ 0 ∧
    (createConfig ⟨none, none, none, none, none⟩).MAX_RELEVANT_OLDER ≠ 0 ∧
    (createConfig ⟨none, none, none, none, none⟩).MIN_KEYWORD_LENGTH ≠ 0 ∧
    (createConfig ⟨none, none, none, none, none⟩).RELEVANCE_THRESHOLD ≠ 0 ∧
    ((jsParseInt (Env.mk none none none none none).MAX_CONTEXT_CHARS = none ∨
        jsParseInt (Env.mk none none none none none).MAX_CONTEXT_CHARS = some 0) →
      (createConfig ⟨none, none, none, none, none⟩).MAX_CONTEXT_CHARS = 4000) ∧
    ((jsParseInt (Env.mk none none none none none).MIN_RECENT_MESSAGES = none ∨
        jsParseInt (Env.mk none none none none none).MIN_RECENT_MESSAGES = some 0) →
      (createConfig ⟨none, none, none, none, none⟩).MIN_RECENT_MESSAGES = 3) ∧
    ((jsParseInt (Env.mk none none none none none).MAX_RELEVANT_OLDER = none ∨
        jsParseInt (Env.mk none none none none none).MAX_RELEVANT_OLDER = some 0) →
      (createConfig ⟨none, none, none, none, none⟩).MAX_RELEVANT_OLDER = 3) ∧
    ((jsParseInt (Env.mk none none none none none).MIN_KEYWORD_LENGTH = none ∨
        jsParseInt (Env.mk none none none none none).MIN_KEYWORD_LENGTH = some 0) →
      (createConfig ⟨none, none, none, none, none⟩).MIN_KEYWORD_LENGTH = 4) ∧
    ((jsParseFloat (Env.mk none none none none none).RELEVANCE_THRESHOLD = none ∨
        jsParseFloat (Env.mk none none none none none).RELEVANCE_THRESHOLD = some 0) →
      (createConfig ⟨none, none, none, none, none⟩).RELEVANCE_THRESHOLD = (3 : ℚ) / 10) :=
  createConfig_spec ⟨none, none, none, none, none⟩
